import Mathlib

/-!
Verification of the SMART attribute-table decoder of the `hdd` repository
(`src/ata/data/attr/mod.rs` and `src/ata/data/attr/raw.rs`).

Byte buffers are embedded as `List Nat` (device buffers hold `u8` values,
i.e. entries `< 256`); fallible indexing (`data[offset]`, which panics in
Rust when out of bounds) is embedded as `List.getElem?`, so a Rust panic
shows up as `none` and a normal return as `some`.
-/

namespace Hdd

set_option maxRecDepth 40000

/-- A byte buffer (`Vec<u8>` / `&[u8]` in the source). -/
abbrev Buf := List Nat

/-- Modelled from the spec: the rule type `drivedb::vendor_attribute::Attribute`
is not under src/; its fields are pinned by the doc-test in `src/lib.rs`
(`attr.id`, `attr.name`, `attr.format`, `attr.byte_order`) and §3 of the spec
(`AttributeRule`). The `drivetype` restriction plays no role in decoding and
is omitted. -/
structure Attribute where
  id : Option Nat
  name : Option String
  format : String
  byte_order : String
deriving Repr, DecidableEq

/-- Modelled from the spec: `drivedb::DriveMeta` is not under src/; per §4.4
the only capability the decoder consumes is a pure lookup from attribute id
to the resolved rule, so it is embedded as that lookup function. -/
def DriveMeta := Nat → Option Attribute

/-- Modelled from the spec: `DriveMeta::render_attribute` (§4.4) — pure lookup
of the effective rule for an attribute id, `none` when the resolved rule set
has no rule for this id. -/
def render_attribute (m : DriveMeta) (id : Nat) : Option Attribute := m id

/-- `fn read(data: &[u8], bits: usize) -> u64` from `raw.rs`: big-endian read
of the first `bits/8` bytes (`u64` arithmetic, hence the `% 2 ^ 64`). -/
def read (data : Buf) (bits : Nat) : Option Nat :=
  (List.range (bits / 8)).foldlM (fun out i => do
    let b ← data[i]?
    pure (((out <<< 8) + b) % 2 ^ 64)) 0

/-- One character of the byte-order string selects one source byte
(`fn reorder` in `raw.rs`): `v`→data[3], `w`→data[4], `'0'..'5'`→data[5..10],
`r`→data[11], anything else a zero pad byte. -/
def reorder_sel (data : Buf) (c : Char) : Option Nat :=
  if c = 'v' then data[3]?
  else if c = 'w' then data[4]?
  else if c = '0' then data[5]?
  else if c = '1' then data[6]?
  else if c = '2' then data[7]?
  else if c = '3' then data[8]?
  else if c = '4' then data[9]?
  else if c = '5' then data[10]?
  else if c = 'r' then data[11]?
  else some 0

/-- `fn reorder(data: &[u8], byte_order: &str) -> Vec<u8>` from `raw.rs`:
map each character of the byte-order string to a source byte. -/
def reorder (data : Buf) (byte_order : String) : Option Buf :=
  byte_order.data.mapM (reorder_sel data)

/-- Modelled from the spec: the `Raw` value enum of `raw.rs` is truncated out
of src/; §4.6 fixes the contract (formats select how many leading reordered
bytes are significant; generic raw-integer fallback otherwise) and the only
concretely observable format is the minutes count `min2hour` (`src/lib.rs`
doc-test), so the model carries that format plus the generic raw integer. -/
inductive RawValue where
  | raw (v : Nat) : RawValue
  | minutes (v : Nat) : RawValue
deriving Repr, DecidableEq

/-- Modelled from the spec: `Raw::from_raw_entry(data, attr)` is truncated out
of src/. Per §4.6: reorder the 12-byte slot by the rule's byte-order string
(default `"543210"` — the six raw bytes — when no rule is resolved), then read
the format's number of significant leading bytes (6 for the minutes format,
up to 8 = one `u64` for the generic raw integer; never more than the reordered
sequence holds, the source pads short byte-order strings with `'_'` which
`reorder` turns into zero bytes). -/
def from_raw_entry (data : Buf) (attr : Option Attribute) : Option RawValue := do
  let bo := match attr with
    | some a => a.byte_order
    | none => "543210"
  let bytes ← reorder data bo
  let fmt := match attr with
    | some a => a.format
    | none => "raw64"
  let width := min bytes.length (if fmt = "min2hour" then 6 else 8)
  let v ← read bytes (8 * width)
  pure (if fmt = "min2hour" then RawValue.minutes v else RawValue.raw v)

/-- The decoded per-slot record built by `parse_smart_values` in `mod.rs`;
the struct itself is truncated out of src/, but every field and its type is
pinned by the struct literal in `mod.rs` and the field uses in
`cli/src/attrs.rs`. -/
structure SmartAttribute where
  id : Nat
  name : Option String
  pre_fail : Bool
  online : Bool
  performance : Bool
  error_rate : Bool
  event_count : Bool
  self_preserving : Bool
  flags : Nat
  value : Option Nat
  worst : Option Nat
  raw : RawValue
  thresh : Option Nat
deriving Repr, DecidableEq

/-- `meta.as_ref().map(|meta| meta.render_attribute(id)).unwrap_or(None)`
from `mod.rs`. -/
def resolvedRule (meta : Option DriveMeta) (id : Nat) : Option Attribute :=
  match meta with
  | some m => render_attribute m id
  | none => none

/-- `let is_in_raw = |c| attr.as_ref().map(|a| a.byte_order.contains(c)).unwrap_or(false)`
from `mod.rs`; Rust's `str::contains(char)` is membership of the character in
the string's character sequence. -/
def is_in_raw (attr : Option Attribute) (c : Char) : Bool :=
  match attr with
  | some a => a.byte_order.data.contains c
  | none => false

/-- One iteration of the threshold-table loop of `parse_smart_values`:
skip the slot when its id byte is 0, otherwise insert id ↦ threshold byte.
The `HashMap::insert` (replacing any previous binding) is embedded as a cons
onto an association list that is only ever read through first-match lookup
(`threshs_get`). -/
def thresh_step (raw_thresh : Buf) (m : List (Nat × Nat)) (i : Nat) :
    Option (List (Nat × Nat)) := do
  let offset := 2 + i * 12
  let id ← raw_thresh[offset]?
  if id = 0 then pure m
  else do
    let t ← raw_thresh[offset + 1]?
    pure ((id, t) :: m)

/-- `threshs.get(&id).map(|&t| t)` — first-match lookup in the association
list standing for the `HashMap`. -/
def threshs_get (m : List (Nat × Nat)) (id : Nat) : Option Nat :=
  (m.find? (fun p => p.1 == id)).map (fun p => p.2)

/-- The 12-byte slice `&data[offset .. offset + 12]` handed to
`Raw::from_raw_entry`. -/
def slotBytes (data : Buf) (offset : Nat) : Buf :=
  (data.drop offset).take 12

/-- One iteration of the attribute-table loop of `parse_smart_values`
(`mod.rs`): yields `[]` for a zero-id slot, a single `SmartAttribute`
otherwise, `none` when an index is out of bounds (Rust panic). -/
def parse_slot (data : Buf) (threshs : List (Nat × Nat)) (meta : Option DriveMeta)
    (i : Nat) : Option (List SmartAttribute) := do
  let offset := 2 + i * 12
  let id ← data[offset]?
  if id = 0 then pure []
  else do
    let b1 ← data[offset + 1]?
    let b2 ← data[offset + 2]?
    let flags := b1 + (b2 <<< 8)
    let attr := resolvedRule meta id
    let value ← if is_in_raw attr 'v' then pure (none : Option Nat)
      else do
        let b ← data[offset + 3]?
        pure (some b)
    let worst ← if is_in_raw attr 'w' then pure (none : Option Nat)
      else do
        let b ← data[offset + 4]?
        pure (some b)
    let slot ← if offset + 12 ≤ data.length then some (slotBytes data offset) else none
    let raw ← from_raw_entry slot attr
    pure [{ id := id
            name := match attr with
              | some a => a.name
              | none => none
            pre_fail := flags &&& 1 != 0
            online := flags &&& 2 != 0
            performance := flags &&& 4 != 0
            error_rate := flags &&& 8 != 0
            event_count := flags &&& 16 != 0
            self_preserving := flags &&& 32 != 0
            flags := flags &&& 0xFFC0
            value := value
            worst := worst
            raw := raw
            thresh := threshs_get threshs id }]

/-- `pub fn parse_smart_values(data, raw_thresh, meta) -> Vec<SmartAttribute>`
from `mod.rs`: build the id → threshold map from the 30 twelve-byte slots of
the threshold table (offset 2 + i*12), then decode the 30 attribute-table
slots in order. `none` stands for a Rust panic (out-of-bounds index). -/
def parse_smart_values (data raw_thresh : Buf) (meta : Option DriveMeta) :
    Option (List SmartAttribute) := do
  let threshs ← (List.range 30).foldlM (thresh_step raw_thresh) []
  let slots ← (List.range 30).mapM (parse_slot data threshs meta)
  pure slots.flatten

/-!
### Total mirrors

On buffers long enough for every index the loops touch, the decoder never
hits an out-of-bounds index; the following total functions compute the same
results with defaulted reads (`List.getD`), and are proved equal to the
fallible embedding above.
-/

/-- The id byte of slot `i` (byte offset `2 + i * 12`) of a table. -/
def slotId (buf : Buf) (i : Nat) : Nat := buf.getD (2 + i * 12) 0

/-- Total mirror of `reorder_sel`. -/
def selT (slot : Buf) (c : Char) : Nat :=
  if c = 'v' then slot.getD 3 0
  else if c = 'w' then slot.getD 4 0
  else if c = '0' then slot.getD 5 0
  else if c = '1' then slot.getD 6 0
  else if c = '2' then slot.getD 7 0
  else if c = '3' then slot.getD 8 0
  else if c = '4' then slot.getD 9 0
  else if c = '5' then slot.getD 10 0
  else if c = 'r' then slot.getD 11 0
  else 0

/-- Total mirror of `reorder`. -/
def reorderT (slot : Buf) (bo : String) : Buf := bo.data.map (selT slot)

/-- Total mirror of `read`. -/
def readT (data : Buf) (bits : Nat) : Nat :=
  (List.range (bits / 8)).foldl (fun out i => ((out <<< 8) + data.getD i 0) % 2 ^ 64) 0

/-- Total mirror of `from_raw_entry`. -/
def fromRawT (data : Buf) (attr : Option Attribute) : RawValue :=
  let bo := match attr with
    | some a => a.byte_order
    | none => "543210"
  let bytes := reorderT data bo
  let fmt := match attr with
    | some a => a.format
    | none => "raw64"
  let width := min bytes.length (if fmt = "min2hour" then 6 else 8)
  let v := readT bytes (8 * width)
  if fmt = "min2hour" then RawValue.minutes v else RawValue.raw v

/-- Total mirror of `thresh_step`. -/
def thresh_stepT (raw_thresh : Buf) (m : List (Nat × Nat)) (i : Nat) : List (Nat × Nat) :=
  if slotId raw_thresh i = 0 then m
  else (slotId raw_thresh i, raw_thresh.getD (2 + i * 12 + 1) 0) :: m

/-- The id → threshold association list built from the threshold table. -/
def threshT (raw_thresh : Buf) : List (Nat × Nat) :=
  (List.range 30).foldl (thresh_stepT raw_thresh) []

/-- Total mirror of the `SmartAttribute` built from a non-zero-id slot `i`. -/
def mkAttr (data : Buf) (th : List (Nat × Nat)) (meta : Option DriveMeta) (i : Nat) :
    SmartAttribute :=
  let offset := 2 + i * 12
  let id := data.getD offset 0
  let b1 := data.getD (offset + 1) 0
  let b2 := data.getD (offset + 2) 0
  let flags := b1 + (b2 <<< 8)
  let attr := resolvedRule meta id
  { id := id
    name := match attr with
      | some a => a.name
      | none => none
    pre_fail := flags &&& 1 != 0
    online := flags &&& 2 != 0
    performance := flags &&& 4 != 0
    error_rate := flags &&& 8 != 0
    event_count := flags &&& 16 != 0
    self_preserving := flags &&& 32 != 0
    flags := flags &&& 0xFFC0
    value := if is_in_raw attr 'v' then none else some (data.getD (offset + 3) 0)
    worst := if is_in_raw attr 'w' then none else some (data.getD (offset + 4) 0)
    raw := fromRawT (slotBytes data offset) attr
    thresh := threshs_get th id }

/-- The slot indices (among the 30) whose id byte is non-zero. -/
def nonzeroSlots (buf : Buf) : List Nat :=
  (List.range 30).filter (fun i => slotId buf i != 0)

/-- Total mirror of the whole decoder on 512-byte buffers. -/
def attrsT (data rt : Buf) (meta : Option DriveMeta) : List SmartAttribute :=
  (nonzeroSlots data).map (mkAttr data (threshT rt) meta)

/-!
### Bridging the fallible embedding to the total mirrors
-/

theorem getElem?_of_lt (l : Buf) (i : Nat) (h : i < l.length) :
    l[i]? = some (l.getD i 0) := by
  simp [List.getElem?_eq_getElem h]

theorem foldlM_eq_foldl {α β : Type} (f : β → α → Option β) (g : β → α → β) (l : List α)
    (hfg : ∀ b a, a ∈ l → f b a = some (g b a)) (init : β) :
    l.foldlM f init = some (l.foldl g init) := by
  induction l generalizing init with
  | nil => rfl
  | cons a l ih =>
    rw [List.foldlM_cons, List.foldl_cons, hfg init a (List.mem_cons_self a l)]
    exact ih (fun b x hx => hfg b x (List.mem_cons_of_mem _ hx)) (g init a)

theorem mapM_eq_map {α β : Type} (f : α → Option β) (g : α → β) (l : List α)
    (hfg : ∀ a ∈ l, f a = some (g a)) :
    l.mapM f = some (l.map g) := by
  induction l with
  | nil => rfl
  | cons a l ih =>
    rw [List.mapM_cons, hfg a (List.mem_cons_self a l)]
    rw [ih (fun x hx => hfg x (List.mem_cons_of_mem _ hx))]
    rfl

theorem reorder_sel_eq (data : Buf) (c : Char) (h : 12 ≤ data.length) :
    reorder_sel data c = some (selT data c) := by
  unfold reorder_sel selT
  repeat' split
  all_goals first
    | rfl
    | exact getElem?_of_lt _ _ (by omega)

theorem reorder_eq (data : Buf) (bo : String) (h : 12 ≤ data.length) :
    reorder data bo = some (reorderT data bo) := by
  unfold reorder reorderT
  exact mapM_eq_map _ _ _ (fun c _ => reorder_sel_eq data c h)

theorem read_eq (data : Buf) (bits : Nat) (h : bits / 8 ≤ data.length) :
    read data bits = some (readT data bits) := by
  unfold read readT
  apply foldlM_eq_foldl
  intro b i hi
  have hilt : i < bits / 8 := List.mem_range.mp hi
  rw [getElem?_of_lt data i (by omega)]
  rfl

theorem fromRaw_aux (data : Buf) (bo fmt : String) (h : 12 ≤ data.length) :
    (do
      let bytes ← reorder data bo
      let width := min bytes.length (if fmt = "min2hour" then 6 else 8)
      let v ← read bytes (8 * width)
      pure (if fmt = "min2hour" then RawValue.minutes v else RawValue.raw v) :
      Option RawValue)
    = some (
      let bytes := reorderT data bo
      let width := min bytes.length (if fmt = "min2hour" then 6 else 8)
      let v := readT bytes (8 * width)
      if fmt = "min2hour" then RawValue.minutes v else RawValue.raw v) := by
  rw [reorder_eq data bo h]
  simp only [Option.bind_eq_bind, Option.some_bind]
  rw [read_eq _ _ (by
    rw [Nat.mul_div_cancel_left _ (by norm_num : 0 < 8)]
    exact min_le_left _ _)]
  rfl

theorem from_raw_entry_eq (data : Buf) (attr : Option Attribute) (h : data.length = 12) :
    from_raw_entry data attr = some (fromRawT data attr) := by
  cases attr with
  | none => exact fromRaw_aux data "543210" "raw64" (by omega)
  | some a => exact fromRaw_aux data a.byte_order a.format (by omega)

theorem slotBytes_length (data : Buf) (offset : Nat) (h : offset + 12 ≤ data.length) :
    (slotBytes data offset).length = 12 := by
  simp only [slotBytes, List.length_take, List.length_drop]
  omega

theorem thresh_step_eq (rt : Buf) (h : 352 ≤ rt.length) (m : List (Nat × Nat)) (i : Nat)
    (hi : i < 30) :
    thresh_step rt m i = some (thresh_stepT rt m i) := by
  simp only [thresh_step, thresh_stepT, slotId]
  rw [getElem?_of_lt rt (2 + i * 12) (by omega)]
  simp only [Option.bind_eq_bind, Option.some_bind]
  by_cases hz : rt.getD (2 + i * 12) 0 = 0
  · rw [if_pos hz, if_pos hz]
    rfl
  · rw [if_neg hz, if_neg hz, getElem?_of_lt rt (2 + i * 12 + 1) (by omega)]
    rfl

theorem threshs_build_eq (rt : Buf) (h : 352 ≤ rt.length) :
    (List.range 30).foldlM (thresh_step rt) [] = some (threshT rt) := by
  unfold threshT
  exact foldlM_eq_foldl _ _ _ (fun m i hi => thresh_step_eq rt h m i (List.mem_range.mp hi)) []

theorem parse_slot_eq (data : Buf) (th : List (Nat × Nat)) (meta : Option DriveMeta) (i : Nat)
    (hd : data.length = 512) (hi : i < 30) :
    parse_slot data th meta i
      = some (if slotId data i = 0 then [] else [mkAttr data th meta i]) := by
  simp only [parse_slot, mkAttr, slotId]
  rw [getElem?_of_lt data (2 + i * 12) (by omega)]
  simp only [Option.bind_eq_bind, Option.some_bind]
  by_cases hz : data.getD (2 + i * 12) 0 = 0
  · rw [if_pos hz, if_pos hz]
    rfl
  · rw [if_neg hz, if_neg hz]
    rw [getElem?_of_lt data (2 + i * 12 + 1) (by omega),
        getElem?_of_lt data (2 + i * 12 + 2) (by omega)]
    simp only [Option.some_bind]
    rw [getElem?_of_lt data (2 + i * 12 + 3) (by omega),
        getElem?_of_lt data (2 + i * 12 + 4) (by omega)]
    rw [from_raw_entry_eq _ _ (slotBytes_length data (2 + i * 12) (by omega))]
    have hslot : (if 2 + i * 12 + 12 ≤ data.length
        then some (slotBytes data (2 + i * 12)) else none)
        = some (slotBytes data (2 + i * 12)) := if_pos (by omega)
    by_cases hv : is_in_raw (resolvedRule meta (data.getD (2 + i * 12) 0)) 'v' = true <;>
      by_cases hw : is_in_raw (resolvedRule meta (data.getD (2 + i * 12) 0)) 'w' = true
    · simp only [if_pos hv, if_pos hw, hslot, Option.pure_def, Option.some_bind]
      rw [if_pos (show 2 + i * 12 + 12 ≤ data.length by omega)]
    · simp only [if_pos hv, if_neg hw, hslot, Option.pure_def, Option.some_bind]
      rw [if_pos (show 2 + i * 12 + 12 ≤ data.length by omega)]
    · simp only [if_neg hv, if_pos hw, hslot, Option.pure_def, Option.some_bind]
      rw [if_pos (show 2 + i * 12 + 12 ≤ data.length by omega)]
    · simp only [if_neg hv, if_neg hw, hslot, Option.pure_def, Option.some_bind]
      rw [if_pos (show 2 + i * 12 + 12 ≤ data.length by omega)]

theorem flatten_aux (data : Buf) (f : Nat → SmartAttribute) (l : List Nat) :
    (l.map (fun i => if slotId data i = 0 then [] else [f i])).flatten
      = (l.filter (fun i => slotId data i != 0)).map f := by
  induction l with
  | nil => rfl
  | cons a l ih => by_cases h : slotId data a = 0 <;> simp [h, ih, List.filter_cons]

/-- On 512-byte buffers the decoder never panics and computes `attrsT`:
one `SmartAttribute` per non-zero-id slot, in slot order. -/
theorem parse_eq (data rt : Buf) (meta : Option DriveMeta)
    (hd : data.length = 512) (ht : rt.length = 512) :
    parse_smart_values data rt meta = some (attrsT data rt meta) := by
  unfold parse_smart_values
  rw [threshs_build_eq rt (by omega)]
  simp only [Option.bind_eq_bind, Option.some_bind]
  rw [mapM_eq_map (parse_slot data (threshT rt) meta)
    (fun i => if slotId data i = 0 then [] else [mkAttr data (threshT rt) meta i])
    (List.range 30)
    (fun i hi => parse_slot_eq data (threshT rt) meta i hd (List.mem_range.mp hi))]
  simp only [Option.some_bind, Option.pure_def]
  rw [flatten_aux data (mkAttr data (threshT rt) meta) (List.range 30)]
  rfl

/-!
### Lookup in the id → threshold association list
-/

theorem threshs_get_cons_hit (p : Nat × Nat) (m : List (Nat × Nat)) (id : Nat)
    (h : p.1 = id) : threshs_get (p :: m) id = some p.2 := by
  unfold threshs_get
  rw [List.find?_cons_of_pos _ (by simp [h])]
  rfl

theorem threshs_get_cons_miss (p : Nat × Nat) (m : List (Nat × Nat)) (id : Nat)
    (h : p.1 ≠ id) : threshs_get (p :: m) id = threshs_get m id := by
  unfold threshs_get
  rw [List.find?_cons_of_neg _ (by simp [h])]

/-- Lookup finds the threshold byte of the last slot (in table order) carrying
the looked-up id, because later loop iterations overwrite earlier inserts. -/
theorem threshT_found (rt : Buf) (id : Nat) (hid : id ≠ 0) :
    ∀ n j, j < n → slotId rt j = id →
    (∀ k, j < k → k < n → slotId rt k ≠ id) →
    threshs_get ((List.range n).foldl (thresh_stepT rt) []) id
      = some (rt.getD (2 + j * 12 + 1) 0) := by
  intro n
  induction n with
  | zero =>
    intro j hj
    omega
  | succ n ih =>
    intro j hj hsl hlast
    rw [List.range_succ, List.foldl_append, List.foldl_cons, List.foldl_nil]
    by_cases hjn : j = n
    · subst hjn
      rw [thresh_stepT, if_neg (by rw [hsl]; exact hid)]
      exact threshs_get_cons_hit _ _ _ hsl
    · have hn : slotId rt n ≠ id := hlast n (by omega) (by omega)
      rw [thresh_stepT]
      by_cases hz : slotId rt n = 0
      · rw [if_pos hz]
        exact ih j (by omega) hsl (fun k hk1 hk2 => hlast k hk1 (by omega))
      · rw [if_neg hz, threshs_get_cons_miss _ _ _ hn]
        exact ih j (by omega) hsl (fun k hk1 hk2 => hlast k hk1 (by omega))

/-- Lookup misses when no slot carries the looked-up id. -/
theorem threshT_not_found (rt : Buf) (id : Nat) :
    ∀ n, (∀ i, i < n → slotId rt i ≠ id) →
    threshs_get ((List.range n).foldl (thresh_stepT rt) []) id = none := by
  intro n
  induction n with
  | zero =>
    intro _
    rfl
  | succ n ih =>
    intro hall
    rw [List.range_succ, List.foldl_append, List.foldl_cons, List.foldl_nil, thresh_stepT]
    by_cases hz : slotId rt n = 0
    · rw [if_pos hz]
      exact ih (fun i hi => hall i (by omega))
    · rw [if_neg hz, threshs_get_cons_miss _ _ _ (hall n (by omega))]
      exact ih (fun i hi => hall i (by omega))

theorem exists_last {P : Nat → Prop} :
    ∀ n, (∃ i, i < n ∧ P i) → ∃ j, j < n ∧ P j ∧ ∀ k, j < k → k < n → ¬ P k := by
  intro n
  induction n with
  | zero =>
    rintro ⟨i, hi, _⟩
    omega
  | succ n ih =>
    rintro ⟨i, hi, hp⟩
    by_cases hn : P n
    · exact ⟨n, by omega, hn, fun k hk1 hk2 => absurd rfl (by omega : k ≠ k)⟩
    · by_cases hin : i = n
      · exact absurd (hin ▸ hp) hn
      · obtain ⟨j, hj, hpj, hlast⟩ := ih ⟨i, by omega, hp⟩
        refine ⟨j, by omega, hpj, fun k hk1 hk2 => ?_⟩
        by_cases hkn : k = n
        · exact hkn ▸ hn
        · exact hlast k hk1 (by omega)

/-!
### Access to the decoded list
-/

theorem mkAttr_id (data : Buf) (th : List (Nat × Nat)) (meta : Option DriveMeta) (i : Nat) :
    (mkAttr data th meta i).id = data.getD (2 + i * 12) 0 := rfl

theorem mkAttr_thresh (data : Buf) (th : List (Nat × Nat)) (meta : Option DriveMeta) (i : Nat) :
    (mkAttr data th meta i).thresh = threshs_get th (data.getD (2 + i * 12) 0) := rfl

theorem mem_attrsT (data rt : Buf) (meta : Option DriveMeta) (a : SmartAttribute)
    (ha : a ∈ attrsT data rt meta) :
    ∃ i, i < 30 ∧ slotId data i ≠ 0 ∧ a = mkAttr data (threshT rt) meta i := by
  unfold attrsT nonzeroSlots at ha
  obtain ⟨i, hi, rfl⟩ := List.mem_map.mp ha
  have hmem := List.mem_filter.mp hi
  refine ⟨i, List.mem_range.mp hmem.1, ?_, rfl⟩
  simpa using hmem.2

theorem attrsT_getElem? (data rt : Buf) (meta : Option DriveMeta) (k i : Nat)
    (h : (nonzeroSlots data)[k]? = some i) :
    (attrsT data rt meta)[k]? = some (mkAttr data (threshT rt) meta i) := by
  unfold attrsT
  rw [List.getElem?_map, h]
  rfl

theorem nonzeroSlots_sound (buf : Buf) (k i : Nat) (h : (nonzeroSlots buf)[k]? = some i) :
    i < 30 ∧ slotId buf i ≠ 0 := by
  have hmem := List.mem_filter.mp (List.getElem?_mem h)
  refine ⟨List.mem_range.mp hmem.1, by simpa using hmem.2⟩

theorem mkAttr_value (data : Buf) (th : List (Nat × Nat)) (meta : Option DriveMeta) (i : Nat) :
    (mkAttr data th meta i).value
      = if is_in_raw (resolvedRule meta (data.getD (2 + i * 12) 0)) 'v'
        then none else some (data.getD (2 + i * 12 + 3) 0) := rfl

theorem mkAttr_worst (data : Buf) (th : List (Nat × Nat)) (meta : Option DriveMeta) (i : Nat) :
    (mkAttr data th meta i).worst
      = if is_in_raw (resolvedRule meta (data.getD (2 + i * 12) 0)) 'w'
        then none else some (data.getD (2 + i * 12 + 4) 0) := rfl

theorem is_in_raw_of_forall_false (ro : Option Attribute) (c : Char)
    (h : ∀ r, ro = some r → r.byte_order.data.contains c = false) :
    is_in_raw ro c = false := by
  cases ro with
  | none => rfl
  | some r => exact h r rfl

/-!
### The claims
-/

/-- C4: the byte reorder function is the pure per-character map over the
byte-order string: each character selects exactly one source byte
(`v`→slot[3], `w`→slot[4], `'0'..'5'`→slot[5..10], `r`→slot[11], anything
else the zero pad byte), and equal inputs give the identical sequence. -/
theorem reorder_is_char_map (slot : Buf) (bo : String) (h : 12 ≤ slot.length) :
    ∃ out, reorder slot bo = some out ∧
      out.length = bo.data.length ∧
      (∀ (k : Nat) (c : Char), bo.data[k]? = some c →
        out[k]? = some (
          if c = 'v' then slot.getD 3 0
          else if c = 'w' then slot.getD 4 0
          else if c = '0' then slot.getD 5 0
          else if c = '1' then slot.getD 6 0
          else if c = '2' then slot.getD 7 0
          else if c = '3' then slot.getD 8 0
          else if c = '4' then slot.getD 9 0
          else if c = '5' then slot.getD 10 0
          else if c = 'r' then slot.getD 11 0
          else 0)) ∧
      (∀ out2, reorder slot bo = some out2 → out2 = out) := by
  refine ⟨reorderT slot bo, reorder_eq slot bo h, by simp [reorderT], ?_, ?_⟩
  · intro k c hk
    unfold reorderT
    rw [List.getElem?_map, hk]
    rfl
  · intro out2 h2
    rw [reorder_eq slot bo h] at h2
    exact (Option.some.inj h2).symm

/-- C5: raw-value decoding is total — on a 12-byte slot the byte reorder
never goes out of bounds for any byte-order string, and the whole raw
decoding produces some `RawValue` for any rule (present or absent). -/
theorem raw_decoding_total (slot : Buf) (attr : Option Attribute) (h : slot.length = 12) :
    (∀ bo : String, ∃ out, reorder slot bo = some out) ∧
      ∃ v, from_raw_entry slot attr = some v :=
  ⟨fun bo => ⟨reorderT slot bo, reorder_eq slot bo (by omega)⟩,
   ⟨fromRawT slot attr, from_raw_entry_eq slot attr h⟩⟩

/-- C1 (code bug): `parse_smart_values` performs no length check at all —
it returns a plain `Vec`, so it cannot report `InvalidLength`. On a
too-short threshold or attribute buffer it hits an out-of-bounds index
(a Rust panic, embedded as `none`), and on 362-byte buffers (the loops only
touch bytes 2..361) it decodes successfully although the buffers are not
512 bytes long. -/
theorem parse_no_length_check :
    parse_smart_values (List.replicate 512 0) [] none = none ∧
    parse_smart_values [] (List.replicate 512 0) none = none ∧
    parse_smart_values (List.replicate 362 0) (List.replicate 362 0) none = some [] :=
  ⟨by decide, by decide, by decide⟩

/-- C10: the decoded list corresponds one-to-one, in slot order, to the
non-zero-id slots: its id sequence is exactly the id bytes of the non-zero
slots in increasing slot index (duplicates kept), and its length is the
number of non-zero-id slots. -/
theorem attrs_order_and_count (data rt : Buf) (meta : Option DriveMeta)
    (attrs : List SmartAttribute) (hd : data.length = 512) (ht : rt.length = 512)
    (hp : parse_smart_values data rt meta = some attrs) :
    attrs.map (fun a => a.id)
        = (nonzeroSlots data).map (fun i => data.getD (2 + i * 12) 0) ∧
      attrs.length = (nonzeroSlots data).length := by
  rw [parse_eq data rt meta hd ht] at hp
  obtain rfl : attrsT data rt meta = attrs := Option.some.inj hp
  constructor
  · unfold attrsT
    rw [List.map_map]
    rfl
  · unfold attrsT
    rw [List.length_map]

/-- C9 (implicit): when several threshold-table slots carry the same id, the
threshold attached to attributes with that id comes from the last such slot
in table order — earlier duplicates are overwritten in the id → threshold
map. -/
theorem duplicate_threshold_last_wins (data rt : Buf) (meta : Option DriveMeta)
    (attrs : List SmartAttribute) (hd : data.length = 512) (ht : rt.length = 512)
    (hp : parse_smart_values data rt meta = some attrs) :
    ∀ a ∈ attrs, ∀ i j, i < j → j < 30 →
      rt.getD (2 + i * 12) 0 = a.id → rt.getD (2 + j * 12) 0 = a.id →
      (∀ k, k < 30 → j < k → rt.getD (2 + k * 12) 0 ≠ a.id) →
      a.thresh = some (rt.getD (2 + j * 12 + 1) 0) := by
  intro a ha i j hij hj hi_id hj_id hlast
  rw [parse_eq data rt meta hd ht] at hp
  obtain rfl : attrsT data rt meta = attrs := Option.some.inj hp
  obtain ⟨s, hs30, hnz, rfl⟩ := mem_attrsT data rt meta a ha
  rw [mkAttr_thresh]
  exact threshT_found rt _ hnz 30 j hj hj_id (fun k h1 h2 => hlast k h2 h1)

/-- C6: `thresh` of an emitted attribute equals the threshold byte of a
threshold-table slot carrying the same id when one exists, is `None` when no
slot carries the id, and does not depend on the resolved rule set. -/
theorem thresh_from_threshold_table (data rt : Buf) (meta : Option DriveMeta)
    (attrs : List SmartAttribute) (hd : data.length = 512) (ht : rt.length = 512)
    (hp : parse_smart_values data rt meta = some attrs) :
    ∀ a ∈ attrs,
      ((∃ i, i < 30 ∧ rt.getD (2 + i * 12) 0 = a.id) →
        ∃ i, i < 30 ∧ rt.getD (2 + i * 12) 0 = a.id ∧
          a.thresh = some (rt.getD (2 + i * 12 + 1) 0)) ∧
      ((∀ i, i < 30 → rt.getD (2 + i * 12) 0 ≠ a.id) → a.thresh = none) ∧
      (∀ meta2, ∃ attrs2, parse_smart_values data rt meta2 = some attrs2 ∧
        attrs2.map (fun x => x.thresh) = attrs.map (fun x => x.thresh)) := by
  intro a ha
  rw [parse_eq data rt meta hd ht] at hp
  obtain rfl : attrsT data rt meta = attrs := Option.some.inj hp
  obtain ⟨s, hs30, hnz, rfl⟩ := mem_attrsT data rt meta a ha
  refine ⟨?_, ?_, ?_⟩
  · intro hex
    obtain ⟨j, hj, hpj, hlast⟩ := exists_last 30 hex
    refine ⟨j, hj, hpj, ?_⟩
    rw [mkAttr_thresh]
    exact threshT_found rt _ hnz 30 j hj hpj hlast
  · intro hnone
    rw [mkAttr_thresh]
    exact threshT_not_found rt _ 30 hnone
  · intro meta2
    refine ⟨attrsT data rt meta2, parse_eq data rt meta2 hd ht, ?_⟩
    unfold attrsT
    rw [List.map_map, List.map_map]
    rfl

/-- C3: for every decoded slot, `value` is `None` exactly when the rule
resolved for the slot's id has a byte-order string containing `v` (otherwise
it is the table byte at slot offset 3), and symmetrically for `w` and
`worst` (slot offset 4). -/
theorem value_worst_follow_byte_order (data rt : Buf) (meta : Option DriveMeta)
    (attrs : List SmartAttribute) (hd : data.length = 512) (ht : rt.length = 512)
    (hp : parse_smart_values data rt meta = some attrs) :
    ∀ (k i : Nat), (nonzeroSlots data)[k]? = some i →
    ∃ a : SmartAttribute, attrs[k]? = some a ∧ a.id = data.getD (2 + i * 12) 0 ∧
      ((∃ r, resolvedRule meta a.id = some r ∧ r.byte_order.data.contains 'v' = true) →
        a.value = none) ∧
      ((∀ r, resolvedRule meta a.id = some r → r.byte_order.data.contains 'v' = false) →
        a.value = some (data.getD (2 + i * 12 + 3) 0)) ∧
      ((∃ r, resolvedRule meta a.id = some r ∧ r.byte_order.data.contains 'w' = true) →
        a.worst = none) ∧
      ((∀ r, resolvedRule meta a.id = some r → r.byte_order.data.contains 'w' = false) →
        a.worst = some (data.getD (2 + i * 12 + 4) 0)) := by
  intro k i hk
  rw [parse_eq data rt meta hd ht] at hp
  obtain rfl : attrsT data rt meta = attrs := Option.some.inj hp
  refine ⟨mkAttr data (threshT rt) meta i, attrsT_getElem? data rt meta k i hk,
    rfl, ?_, ?_, ?_, ?_⟩
  · rintro ⟨r, hr, hc⟩
    rw [mkAttr_value]
    rw [mkAttr_id] at hr
    rw [if_pos (show is_in_raw (resolvedRule meta (data.getD (2 + i * 12) 0)) 'v' = true by
      rw [hr]
      exact hc)]
  · intro hall
    rw [mkAttr_id] at hall
    rw [mkAttr_value,
      if_neg (by rw [is_in_raw_of_forall_false _ _ hall]; exact Bool.false_ne_true)]
  · rintro ⟨r, hr, hc⟩
    rw [mkAttr_worst]
    rw [mkAttr_id] at hr
    rw [if_pos (show is_in_raw (resolvedRule meta (data.getD (2 + i * 12) 0)) 'w' = true by
      rw [hr]
      exact hc)]
  · intro hall
    rw [mkAttr_id] at hall
    rw [mkAttr_worst,
      if_neg (by rw [is_in_raw_of_forall_false _ _ hall]; exact Bool.false_ne_true)]

/-- C8: with no database match (no rule resolves for any id) every non-zero-id
slot still decodes, with no name, both `value` and `worst` taken from the
fixed table bytes, and the raw payload decoded by the no-rule (generic
raw-integer) fallback. -/
theorem no_rule_fallback (data rt : Buf) (meta : Option DriveMeta)
    (attrs : List SmartAttribute) (hd : data.length = 512) (ht : rt.length = 512)
    (hm : ∀ id, resolvedRule meta id = none)
    (hp : parse_smart_values data rt meta = some attrs) :
    attrs.length = (nonzeroSlots data).length ∧
    ∀ (k i : Nat), (nonzeroSlots data)[k]? = some i →
    ∃ a : SmartAttribute, attrs[k]? = some a ∧ a.id = data.getD (2 + i * 12) 0 ∧
      a.name = none ∧
      a.value = some (data.getD (2 + i * 12 + 3) 0) ∧
      a.worst = some (data.getD (2 + i * 12 + 4) 0) ∧
      from_raw_entry (slotBytes data (2 + i * 12)) none = some a.raw := by
  rw [parse_eq data rt meta hd ht] at hp
  obtain rfl : attrsT data rt meta = attrs := Option.some.inj hp
  constructor
  · unfold attrsT
    rw [List.length_map]
  intro k i hk
  refine ⟨mkAttr data (threshT rt) meta i, attrsT_getElem? data rt meta k i hk,
    rfl, ?_, ?_, ?_, ?_⟩
  · show (match resolvedRule meta (data.getD (2 + i * 12) 0) with
      | some a => a.name
      | none => none) = none
    rw [hm]
  · rw [mkAttr_value, hm]
    rfl
  · rw [mkAttr_worst, hm]
    rfl
  · have hb : (slotBytes data (2 + i * 12)).length = 12 :=
      slotBytes_length data (2 + i * 12)
        (by have := (nonzeroSlots_sound data k i hk).1; omega)
    rw [from_raw_entry_eq _ _ hb]
    show _ = some (fromRawT (slotBytes data (2 + i * 12))
      (resolvedRule meta (data.getD (2 + i * 12) 0)))
    rw [hm]

theorem and_two_pow_ne_zero (w k : Nat) : (w &&& 2 ^ k != 0) = w.testBit k := by
  rw [Nat.and_two_pow]
  cases h : w.testBit k <;> simp [h]

theorem getD_lt (data : Buf) (i : Nat) (hi : i < data.length)
    (hb : ∀ b ∈ data, b < 256) : data.getD i 0 < 256 := by
  rw [List.getD_eq_getElem?_getD, List.getElem?_eq_getElem hi]
  exact hb _ (List.getElem_mem hi)

theorem mkAttr_pre_fail (data : Buf) (th : List (Nat × Nat)) (meta : Option DriveMeta)
    (i : Nat) : (mkAttr data th meta i).pre_fail
      = (data.getD (2 + i * 12 + 1) 0 + (data.getD (2 + i * 12 + 2) 0 <<< 8) &&& 1 != 0) :=
  rfl

theorem mkAttr_online (data : Buf) (th : List (Nat × Nat)) (meta : Option DriveMeta)
    (i : Nat) : (mkAttr data th meta i).online
      = (data.getD (2 + i * 12 + 1) 0 + (data.getD (2 + i * 12 + 2) 0 <<< 8) &&& 2 != 0) :=
  rfl

theorem mkAttr_performance (data : Buf) (th : List (Nat × Nat)) (meta : Option DriveMeta)
    (i : Nat) : (mkAttr data th meta i).performance
      = (data.getD (2 + i * 12 + 1) 0 + (data.getD (2 + i * 12 + 2) 0 <<< 8) &&& 4 != 0) :=
  rfl

theorem mkAttr_error_rate (data : Buf) (th : List (Nat × Nat)) (meta : Option DriveMeta)
    (i : Nat) : (mkAttr data th meta i).error_rate
      = (data.getD (2 + i * 12 + 1) 0 + (data.getD (2 + i * 12 + 2) 0 <<< 8) &&& 8 != 0) :=
  rfl

theorem mkAttr_event_count (data : Buf) (th : List (Nat × Nat)) (meta : Option DriveMeta)
    (i : Nat) : (mkAttr data th meta i).event_count
      = (data.getD (2 + i * 12 + 1) 0 + (data.getD (2 + i * 12 + 2) 0 <<< 8) &&& 16 != 0) :=
  rfl

theorem mkAttr_self_preserving (data : Buf) (th : List (Nat × Nat)) (meta : Option DriveMeta)
    (i : Nat) : (mkAttr data th meta i).self_preserving
      = (data.getD (2 + i * 12 + 1) 0 + (data.getD (2 + i * 12 + 2) 0 <<< 8) &&& 32 != 0) :=
  rfl

theorem mkAttr_flags (data : Buf) (th : List (Nat × Nat)) (meta : Option DriveMeta)
    (i : Nat) : (mkAttr data th meta i).flags
      = (data.getD (2 + i * 12 + 1) 0 + (data.getD (2 + i * 12 + 2) 0 <<< 8) &&& 0xFFC0) :=
  rfl

/-- C7: the six capability booleans are bits 0–5 of the 16-bit flags word
(low byte at slot offset 1, high byte at slot offset 2), and the residual
vendor-flags field is that word with its low six bits cleared. -/
theorem capability_flag_bits (data rt : Buf) (meta : Option DriveMeta)
    (attrs : List SmartAttribute) (hd : data.length = 512) (ht : rt.length = 512)
    (hb : ∀ b ∈ data, b < 256)
    (hp : parse_smart_values data rt meta = some attrs) :
    ∀ (k i : Nat), (nonzeroSlots data)[k]? = some i →
    ∃ a : SmartAttribute, attrs[k]? = some a ∧
      (a.pre_fail = Nat.testBit
        (data.getD (2 + i * 12 + 1) 0 + 256 * data.getD (2 + i * 12 + 2) 0) 0) ∧
      (a.online = Nat.testBit
        (data.getD (2 + i * 12 + 1) 0 + 256 * data.getD (2 + i * 12 + 2) 0) 1) ∧
      (a.performance = Nat.testBit
        (data.getD (2 + i * 12 + 1) 0 + 256 * data.getD (2 + i * 12 + 2) 0) 2) ∧
      (a.error_rate = Nat.testBit
        (data.getD (2 + i * 12 + 1) 0 + 256 * data.getD (2 + i * 12 + 2) 0) 3) ∧
      (a.event_count = Nat.testBit
        (data.getD (2 + i * 12 + 1) 0 + 256 * data.getD (2 + i * 12 + 2) 0) 4) ∧
      (a.self_preserving = Nat.testBit
        (data.getD (2 + i * 12 + 1) 0 + 256 * data.getD (2 + i * 12 + 2) 0) 5) ∧
      (∀ j, j < 6 → a.flags.testBit j = false) ∧
      (∀ j, 6 ≤ j → a.flags.testBit j = Nat.testBit
        (data.getD (2 + i * 12 + 1) 0 + 256 * data.getD (2 + i * 12 + 2) 0) j) := by
  intro k i hk
  rw [parse_eq data rt meta hd ht] at hp
  obtain rfl : attrsT data rt meta = attrs := Option.some.inj hp
  have hi30 := (nonzeroSlots_sound data k i hk).1
  have hb1 : data.getD (2 + i * 12 + 1) 0 < 256 := getD_lt data _ (by omega) hb
  have hb2 : data.getD (2 + i * 12 + 2) 0 < 256 := getD_lt data _ (by omega) hb
  have hsh : data.getD (2 + i * 12 + 1) 0 + (data.getD (2 + i * 12 + 2) 0 <<< 8)
      = data.getD (2 + i * 12 + 1) 0 + 256 * data.getD (2 + i * 12 + 2) 0 := by
    rw [Nat.shiftLeft_eq]
    ring
  have hw16 : data.getD (2 + i * 12 + 1) 0 + 256 * data.getD (2 + i * 12 + 2) 0
      < 2 ^ 16 := by
    have h16 : (2 : Nat) ^ 16 = 65536 := by norm_num
    omega
  refine ⟨mkAttr data (threshT rt) meta i, attrsT_getElem? data rt meta k i hk,
    ?_, ?_, ?_, ?_, ?_, ?_, ?_, ?_⟩
  · rw [mkAttr_pre_fail, hsh]
    have h := and_two_pow_ne_zero
      (data.getD (2 + i * 12 + 1) 0 + 256 * data.getD (2 + i * 12 + 2) 0) 0
    rw [show (2 : Nat) ^ 0 = 1 by norm_num] at h
    exact h
  · rw [mkAttr_online, hsh]
    have h := and_two_pow_ne_zero
      (data.getD (2 + i * 12 + 1) 0 + 256 * data.getD (2 + i * 12 + 2) 0) 1
    rw [show (2 : Nat) ^ 1 = 2 by norm_num] at h
    exact h
  · rw [mkAttr_performance, hsh]
    have h := and_two_pow_ne_zero
      (data.getD (2 + i * 12 + 1) 0 + 256 * data.getD (2 + i * 12 + 2) 0) 2
    rw [show (2 : Nat) ^ 2 = 4 by norm_num] at h
    exact h
  · rw [mkAttr_error_rate, hsh]
    have h := and_two_pow_ne_zero
      (data.getD (2 + i * 12 + 1) 0 + 256 * data.getD (2 + i * 12 + 2) 0) 3
    rw [show (2 : Nat) ^ 3 = 8 by norm_num] at h
    exact h
  · rw [mkAttr_event_count, hsh]
    have h := and_two_pow_ne_zero
      (data.getD (2 + i * 12 + 1) 0 + 256 * data.getD (2 + i * 12 + 2) 0) 4
    rw [show (2 : Nat) ^ 4 = 16 by norm_num] at h
    exact h
  · rw [mkAttr_self_preserving, hsh]
    have h := and_two_pow_ne_zero
      (data.getD (2 + i * 12 + 1) 0 + 256 * data.getD (2 + i * 12 + 2) 0) 5
    rw [show (2 : Nat) ^ 5 = 32 by norm_num] at h
    exact h
  · intro j hj
    rw [mkAttr_flags, hsh, Nat.testBit_land]
    have hmask : ∀ j, j < 6 → Nat.testBit 0xFFC0 j = false := by decide
    rw [hmask j hj, Bool.and_false]
  · intro j hj6
    rw [mkAttr_flags, hsh, Nat.testBit_land]
    by_cases hj16 : j < 16
    · have hmask : ∀ j, 6 ≤ j → j < 16 → Nat.testBit 0xFFC0 j = true := by decide
      rw [hmask j hj6 hj16, Bool.and_true]
    · have hwj : Nat.testBit
          (data.getD (2 + i * 12 + 1) 0 + 256 * data.getD (2 + i * 12 + 2) 0) j
          = false :=
        Nat.testBit_eq_false_of_lt
          (lt_of_lt_of_le hw16 (Nat.pow_le_pow_right (by norm_num) (by omega)))
      rw [hwj, Bool.false_and]

theorem getD_set_ne (l : Buf) (p q b : Nat) (h : p ≠ q) :
    (l.set p b).getD q 0 = l.getD q 0 := by
  rw [List.getD_eq_getElem?_getD, List.getD_eq_getElem?_getD, List.getElem?_set_ne h]

theorem slotId_set (buf : Buf) (p b i : Nat) (h : p ≠ 2 + i * 12) :
    slotId (buf.set p b) i = slotId buf i :=
  getD_set_ne buf p (2 + i * 12) b h

theorem slotBytes_set_outside (l : Buf) (p b off : Nat) (h : p < off ∨ off + 12 ≤ p) :
    slotBytes (l.set p b) off = slotBytes l off := by
  unfold slotBytes
  apply List.ext_getElem?
  intro n
  rw [List.getElem?_take, List.getElem?_take]
  by_cases hn : n < 12
  · rw [if_pos hn, if_pos hn, List.getElem?_drop, List.getElem?_drop,
      List.getElem?_set_ne (show p ≠ off + n by omega)]
  · rw [if_neg hn, if_neg hn]

theorem mkAttr_set_outside (data : Buf) (th : List (Nat × Nat)) (meta : Option DriveMeta)
    (i p b : Nat) (h : p < 2 + i * 12 ∨ 2 + i * 12 + 12 ≤ p) :
    mkAttr (data.set p b) th meta i = mkAttr data th meta i := by
  simp only [mkAttr]
  rw [getD_set_ne data p (2 + i * 12) b (by omega),
    getD_set_ne data p (2 + i * 12 + 1) b (by omega),
    getD_set_ne data p (2 + i * 12 + 2) b (by omega),
    getD_set_ne data p (2 + i * 12 + 3) b (by omega),
    getD_set_ne data p (2 + i * 12 + 4) b (by omega),
    slotBytes_set_outside data p b (2 + i * 12) (by omega)]

theorem thresh_stepT_set (rt : Buf) (i j b : Nat) (hj1 : 1 ≤ j) (hj11 : j ≤ 11)
    (hz : slotId rt i = 0) (m : List (Nat × Nat)) (n : Nat) :
    thresh_stepT (rt.set (2 + i * 12 + j) b) m n = thresh_stepT rt m n := by
  unfold thresh_stepT
  rw [slotId_set rt (2 + i * 12 + j) b n (by omega)]
  by_cases hni : n = i
  · subst hni
    rw [if_pos hz, if_pos hz]
  · by_cases hz2 : slotId rt n = 0
    · rw [if_pos hz2, if_pos hz2]
    · rw [if_neg hz2, if_neg hz2,
        getD_set_ne rt (2 + i * 12 + j) (2 + n * 12 + 1) b (by omega)]

/-- C2: a slot whose id byte is 0 is skipped entirely — no decoded attribute
carries id 0, and rewriting any of the other 11 bytes of a zero-id slot (in
the attribute table or in the threshold table) leaves the decoder's output
unchanged. -/
theorem zero_id_slots_skipped (data rt : Buf) (meta : Option DriveMeta)
    (hd : data.length = 512) (ht : rt.length = 512) :
    (∀ attrs, parse_smart_values data rt meta = some attrs →
      ∀ a ∈ attrs, a.id ≠ 0) ∧
    (∀ i j b, i < 30 → 1 ≤ j → j ≤ 11 → data.getD (2 + i * 12) 0 = 0 →
      parse_smart_values (data.set (2 + i * 12 + j) b) rt meta
        = parse_smart_values data rt meta) ∧
    (∀ i j b, i < 30 → 1 ≤ j → j ≤ 11 → rt.getD (2 + i * 12) 0 = 0 →
      parse_smart_values data (rt.set (2 + i * 12 + j) b) meta
        = parse_smart_values data rt meta) := by
  refine ⟨?_, ?_, ?_⟩
  · intro attrs hp a ha
    rw [parse_eq data rt meta hd ht] at hp
    obtain rfl : attrsT data rt meta = attrs := Option.some.inj hp
    obtain ⟨s, hs30, hnz, rfl⟩ := mem_attrsT data rt meta a ha
    rw [mkAttr_id]
    exact hnz
  · intro i j b hi hj1 hj11 hz
    have hlen : (data.set (2 + i * 12 + j) b).length = 512 := by
      rw [List.length_set]
      exact hd
    rw [parse_eq _ rt meta hlen ht, parse_eq data rt meta hd ht]
    have hsl : ∀ x, slotId (data.set (2 + i * 12 + j) b) x = slotId data x :=
      fun x => slotId_set data (2 + i * 12 + j) b x (by omega)
    have hnz : nonzeroSlots (data.set (2 + i * 12 + j) b) = nonzeroSlots data := by
      unfold nonzeroSlots
      exact List.filter_congr (fun x _ => by rw [hsl x])
    unfold attrsT
    rw [hnz]
    refine congrArg some (List.map_congr_left ?_)
    intro x hx
    have hxnz : slotId data x ≠ 0 := by
      have := List.mem_filter.mp hx
      simpa using this.2
    have hxi : x ≠ i := fun he => hxnz (he ▸ hz)
    exact mkAttr_set_outside data (threshT rt) meta x (2 + i * 12 + j) b (by omega)
  · intro i j b hi hj1 hj11 hz
    have hlen : (rt.set (2 + i * 12 + j) b).length = 512 := by
      rw [List.length_set]
      exact ht
    rw [parse_eq data _ meta hd hlen, parse_eq data rt meta hd ht]
    unfold attrsT threshT
    have hstep : thresh_stepT (rt.set (2 + i * 12 + j) b) = thresh_stepT rt :=
      funext fun m => funext fun n => thresh_stepT_set rt i j b hj1 hj11 hz m n
    rw [hstep]

/-!
### Concrete witness data

A 512-byte attribute table whose slot 0 has id 9, flag bytes 3 and 1 (so the
16-bit flags word is 0x0103), value byte 100, worst byte 50; a 512-byte
threshold table mapping id 9 to threshold 20 (and a variant with a duplicate
id-9 slot whose threshold is 77); a resolved rule set with the
`Power_On_Minutes` rule of the `src/lib.rs` doc-test for id 9.
-/

def dW : Buf := (((((List.replicate 512 0).set 2 9).set 3 3).set 4 1).set 5 100).set 6 50

def rtW : Buf := ((List.replicate 512 0).set 2 9).set 3 20

def rtW9 : Buf := ((((List.replicate 512 0).set 2 9).set 3 20).set 14 9).set 15 77

def attr9 : Attribute :=
  { id := some 9, name := some "Power_On_Minutes", format := "min2hour",
    byte_order := "543210" }

def mW : Option DriveMeta := some (fun id => if id = 9 then some attr9 else none)

def aW : SmartAttribute :=
  { id := 9, name := some "Power_On_Minutes", pre_fail := true, online := true,
    performance := false, error_rate := false, event_count := false,
    self_preserving := false, flags := 256, value := some 100, worst := some 50,
    raw := RawValue.minutes 0, thresh := some 20 }

def aW9 : SmartAttribute :=
  { id := 9, name := some "Power_On_Minutes", pre_fail := true, online := true,
    performance := false, error_rate := false, event_count := false,
    self_preserving := false, flags := 256, value := some 100, worst := some 50,
    raw := RawValue.minutes 0, thresh := some 77 }

def a8W : SmartAttribute :=
  { id := 9, name := none, pre_fail := true, online := true,
    performance := false, error_rate := false, event_count := false,
    self_preserving := false, flags := 256, value := some 100, worst := some 50,
    raw := RawValue.raw 0, thresh := some 20 }

def slot12W : Buf := [9, 3, 1, 100, 50, 11, 12, 13, 14, 15, 16, 17]

/-- Witness for C2 at the concrete drive. -/
theorem zero_id_slots_skipped_w :
    (∀ attrs, parse_smart_values dW rtW mW = some attrs →
      ∀ a ∈ attrs, a.id ≠ 0) ∧
    (∀ i j b, i < 30 → 1 ≤ j → j ≤ 11 → dW.getD (2 + i * 12) 0 = 0 →
      parse_smart_values (dW.set (2 + i * 12 + j) b) rtW mW
        = parse_smart_values dW rtW mW) ∧
    (∀ i j b, i < 30 → 1 ≤ j → j ≤ 11 → rtW.getD (2 + i * 12) 0 = 0 →
      parse_smart_values dW (rtW.set (2 + i * 12 + j) b) mW
        = parse_smart_values dW rtW mW) :=
  zero_id_slots_skipped dW rtW mW (by decide) (by decide)

/-- Witness for C3 at the concrete drive, slot 0. -/
theorem value_worst_follow_byte_order_w :
    ∃ a : SmartAttribute, [aW][0]? = some a ∧ a.id = dW.getD (2 + 0 * 12) 0 ∧
      ((∃ r, resolvedRule mW a.id = some r ∧ r.byte_order.data.contains 'v' = true) →
        a.value = none) ∧
      ((∀ r, resolvedRule mW a.id = some r → r.byte_order.data.contains 'v' = false) →
        a.value = some (dW.getD (2 + 0 * 12 + 3) 0)) ∧
      ((∃ r, resolvedRule mW a.id = some r ∧ r.byte_order.data.contains 'w' = true) →
        a.worst = none) ∧
      ((∀ r, resolvedRule mW a.id = some r → r.byte_order.data.contains 'w' = false) →
        a.worst = some (dW.getD (2 + 0 * 12 + 4) 0)) :=
  value_worst_follow_byte_order dW rtW mW [aW] (by decide) (by decide) (by decide)
    0 0 (by decide)

/-- Witness for C4 at a concrete 12-byte slot and byte-order string. -/
theorem reorder_is_char_map_w :
    ∃ out, reorder slot12W "543210vwrx" = some out ∧
      out.length = ("543210vwrx" : String).data.length ∧
      (∀ (k : Nat) (c : Char), ("543210vwrx" : String).data[k]? = some c →
        out[k]? = some (
          if c = 'v' then slot12W.getD 3 0
          else if c = 'w' then slot12W.getD 4 0
          else if c = '0' then slot12W.getD 5 0
          else if c = '1' then slot12W.getD 6 0
          else if c = '2' then slot12W.getD 7 0
          else if c = '3' then slot12W.getD 8 0
          else if c = '4' then slot12W.getD 9 0
          else if c = '5' then slot12W.getD 10 0
          else if c = 'r' then slot12W.getD 11 0
          else 0)) ∧
      (∀ out2, reorder slot12W "543210vwrx" = some out2 → out2 = out) :=
  reorder_is_char_map slot12W "543210vwrx" (by decide)

/-- Witness for C5 at a concrete 12-byte slot and rule. -/
theorem raw_decoding_total_w :
    (∀ bo : String, ∃ out, reorder slot12W bo = some out) ∧
      ∃ v, from_raw_entry slot12W (some attr9) = some v :=
  raw_decoding_total slot12W (some attr9) (by decide)

/-- Witness for C6 at the concrete drive and its single decoded attribute. -/
theorem thresh_from_threshold_table_w :
    ((∃ i, i < 30 ∧ rtW.getD (2 + i * 12) 0 = aW.id) →
      ∃ i, i < 30 ∧ rtW.getD (2 + i * 12) 0 = aW.id ∧
        aW.thresh = some (rtW.getD (2 + i * 12 + 1) 0)) ∧
    ((∀ i, i < 30 → rtW.getD (2 + i * 12) 0 ≠ aW.id) → aW.thresh = none) ∧
    (∀ meta2, ∃ attrs2, parse_smart_values dW rtW meta2 = some attrs2 ∧
      attrs2.map (fun x => x.thresh) = [aW].map (fun x => x.thresh)) :=
  thresh_from_threshold_table dW rtW mW [aW] (by decide) (by decide) (by decide)
    aW (by decide)

/-- Witness for C7 at the concrete drive, slot 0. -/
theorem capability_flag_bits_w :
    ∃ a : SmartAttribute, [aW][0]? = some a ∧
      (a.pre_fail = Nat.testBit
        (dW.getD (2 + 0 * 12 + 1) 0 + 256 * dW.getD (2 + 0 * 12 + 2) 0) 0) ∧
      (a.online = Nat.testBit
        (dW.getD (2 + 0 * 12 + 1) 0 + 256 * dW.getD (2 + 0 * 12 + 2) 0) 1) ∧
      (a.performance = Nat.testBit
        (dW.getD (2 + 0 * 12 + 1) 0 + 256 * dW.getD (2 + 0 * 12 + 2) 0) 2) ∧
      (a.error_rate = Nat.testBit
        (dW.getD (2 + 0 * 12 + 1) 0 + 256 * dW.getD (2 + 0 * 12 + 2) 0) 3) ∧
      (a.event_count = Nat.testBit
        (dW.getD (2 + 0 * 12 + 1) 0 + 256 * dW.getD (2 + 0 * 12 + 2) 0) 4) ∧
      (a.self_preserving = Nat.testBit
        (dW.getD (2 + 0 * 12 + 1) 0 + 256 * dW.getD (2 + 0 * 12 + 2) 0) 5) ∧
      (∀ j, j < 6 → a.flags.testBit j = false) ∧
      (∀ j, 6 ≤ j → a.flags.testBit j = Nat.testBit
        (dW.getD (2 + 0 * 12 + 1) 0 + 256 * dW.getD (2 + 0 * 12 + 2) 0) j) :=
  capability_flag_bits dW rtW mW [aW] (by decide) (by decide) (by decide) (by decide)
    0 0 (by decide)

/-- Witness for C8 at the concrete drive with no resolved rules. -/
theorem no_rule_fallback_w :
    [a8W].length = (nonzeroSlots dW).length ∧
    ∀ (k i : Nat), (nonzeroSlots dW)[k]? = some i →
    ∃ a : SmartAttribute, [a8W][k]? = some a ∧ a.id = dW.getD (2 + i * 12) 0 ∧
      a.name = none ∧
      a.value = some (dW.getD (2 + i * 12 + 3) 0) ∧
      a.worst = some (dW.getD (2 + i * 12 + 4) 0) ∧
      from_raw_entry (slotBytes dW (2 + i * 12)) none = some a.raw :=
  no_rule_fallback dW rtW none [a8W] (by decide) (by decide) (fun _ => rfl) (by decide)

/-- Witness for C9: threshold slots 0 and 1 both carry id 9; the decoded
threshold is the one of slot 1 (the later slot, value 77). -/
theorem duplicate_threshold_last_wins_w :
    aW9.thresh = some (rtW9.getD (2 + 1 * 12 + 1) 0) :=
  duplicate_threshold_last_wins dW rtW9 mW [aW9] (by decide) (by decide) (by decide)
    aW9 (by decide) 0 1 (by decide) (by decide) (by decide) (by decide) (by decide)

/-- Witness for C10 at the concrete drive. -/
theorem attrs_order_and_count_w :
    [aW].map (fun a => a.id)
        = (nonzeroSlots dW).map (fun i => dW.getD (2 + i * 12) 0) ∧
      [aW].length = (nonzeroSlots dW).length :=
  attrs_order_and_count dW rtW mW [aW] (by decide) (by decide) (by decide)

end Hdd
